import Mathlib

/-!
Verification development for the mini expression compiler (src/compiler.py).

The pipeline is: text → tokens (Lexer) → AST (Parser) → number (Evaluator).
The embedding below translates the Python source into Lean:

* Python numbers are modelled by `Val`: an `int` is an arbitrary-precision
  integer (as in Python), a `float` is modelled as an exact rational.  The
  spec explicitly gives "no floating-point precision guarantees beyond the
  host numeric type's native semantics", and every claim under scrutiny only
  involves values that the host double represents exactly, so the rational
  model never decides a claim differently from the host float.
* The Lexer's mutable cursor (`self.pos` / `self.current_char`) becomes
  explicit state passing: `get_next_token` consumes a list of characters and
  a position and returns the token, the remaining characters, and the new
  position.
* Exceptions become `Except` values: `CErr` collects the lexing/parsing
  failures (including the `ValueError` that Python's `float()` raises on a
  malformed numeric literal such as "1.2.3"), `EvalErr` the evaluation
  failures (division by zero, and the `ValueError` that `math.pow` raises on
  a domain error such as `math.pow(0, -1)`).
* The recursive-descent parser is given a fuel parameter to make it
  structurally recursive; `CErr.fuelExhausted` is an artifact of that
  termination measure and is never produced for the inputs considered here
  (the top-level `parse` supplies fuel well beyond the recursion depth any
  input of that length can force).
* Following the design note of the spec, the AST is a closed sum with
  exactly the two variants (number literal, binary operation) and an
  operator tag drawn from the five operators the parser can produce.
-/

namespace Compiler

/-- Characters Python's `str.isspace()` accepts, restricted to ASCII
(space, tab, newline, carriage return, vertical tab, form feed). -/
def isSpaceChar (c : Char) : Bool :=
  c = ' ' || c = '\t' || c = '\n' || c = '\r' || c = '\x0b' || c = '\x0c'

/-- Characters Python's `str.isdigit()` accepts, restricted to ASCII. -/
def isDigitChar (c : Char) : Bool :=
  '0' ≤ c && c ≤ '9'

/-- Characters that may appear in a numeric run: `self.current_char.isdigit()
or self.current_char == '.'` in `Lexer.number` / `Lexer.get_next_token`. -/
def isNumChar (c : Char) : Bool :=
  isDigitChar c || c = '.'

/-- A Python number: an `int` or a `float` (modelled as an exact rational). -/
inductive Val where
  | int (n : ℤ)
  | flt (q : ℚ)
deriving DecidableEq

/-- The numeric magnitude of a value; Python's `==` between ints and floats
compares magnitudes, so `0 == 0.0` holds. -/
def Val.toRat : Val → ℚ
  | .int n => (n : ℚ)
  | .flt q => q

/-- Token categories (`TokenType` in the source). -/
inductive TokType where
  | number | plus | minus | mul | div | pow | lparen | rparen | eof
deriving DecidableEq

/-- Tokens.  A `NUMBER` token carries its numeric value; the literal operator
characters carried by the Python tokens are redundant with the category and
are not repeated here (the evaluator switches on `op_token.type` only). -/
inductive Token where
  | number (v : Val)
  | plus | minus | mul | div | pow | lparen | rparen | eof
deriving DecidableEq

/-- The category of a token (`token.type` in the source). -/
def Token.type : Token → TokType
  | .number _ => .number
  | .plus => .plus
  | .minus => .minus
  | .mul => .mul
  | .div => .div
  | .pow => .pow
  | .lparen => .lparen
  | .rparen => .rparen
  | .eof => .eof

/-- Lexing/parsing failures.  `lexical` is the "Lexical Error: Invalid
character ... at position ..." exception; `valueError` is the `ValueError`
Python's `float()` raises on a malformed literal; `expected` is the
"Expected X, but found Y" syntax error from `Parser.eat`; `unexpectedToken`
is the "Unexpected token X" syntax error from `Parser.power`; `endExpected`
is the "End of expression expected" syntax error from `Parser.parse`.
`fuelExhausted` is an artifact of the fuel-based termination measure of the
embedded parser, not a behaviour of the source. -/
inductive CErr where
  | lexical (c : Char) (pos : Nat)
  | valueError (run : List Char)
  | expected (exp found : TokType)
  | unexpectedToken (found : TokType)
  | endExpected
  | fuelExhausted
deriving DecidableEq

/-- Value of a string of decimal digits, as computed by Python's `int()`. -/
def digitsToNat (ds : List Char) : ℕ :=
  ds.foldl (fun a c => 10 * a + (c.toNat - '0'.toNat)) 0

/-- `Lexer.number`: convert a maximal run of digits/dots into a `NUMBER`
token.  With no dot the run is a digit string and `int(result)` yields its
value.  With exactly one dot and at least one digit, `float(result)` yields
`intpart.fracpart`.  Otherwise (runs such as "1.2.3" or "."), Python's
`float(result)` raises `ValueError`. -/
def number (run : List Char) : Except CErr Token :=
  if run.count '.' = 0 then
    .ok (.number (.int (digitsToNat run)))
  else if run.count '.' = 1 ∧ 2 ≤ run.length then
    .ok (.number (.flt ((digitsToNat (run.takeWhile (· != '.')) : ℚ) +
      (digitsToNat ((run.dropWhile (· != '.')).tail) : ℚ) /
        (10 : ℚ) ^ ((run.dropWhile (· != '.')).tail).length)))
  else
    .error (.valueError run)

/-- The single-character operator tokens of `Lexer.get_next_token`. -/
def opToken? (c : Char) : Option Token :=
  if c = '+' then some .plus
  else if c = '-' then some .minus
  else if c = '*' then some .mul
  else if c = '/' then some .div
  else if c = '^' then some .pow
  else if c = '(' then some .lparen
  else if c = ')' then some .rparen
  else none

/-- `Lexer.get_next_token`: skip whitespace, then produce one token from the
front of the remaining input (or `EOF` at the end, or a lexical error on an
unrecognized character).  Returns the token together with the characters not
yet consumed and the updated position (`self.pos`). -/
def get_next_token : List Char → Nat → Except CErr (Token × List Char × Nat)
  | [], p => .ok (.eof, [], p)
  | c :: cs, p =>
    if isSpaceChar c then
      get_next_token cs (p + 1)
    else if isNumChar c then
      match number ((c :: cs).takeWhile isNumChar) with
      | .error e => .error e
      | .ok t =>
          .ok (t, (c :: cs).dropWhile isNumChar,
               p + ((c :: cs).takeWhile isNumChar).length)
    else
      match opToken? c with
      | some t => .ok (t, cs, p + 1)
      | none => .error (.lexical c p)

/-- `Lexer.tokenize`'s loop: collect tokens until `EOF` is observed.  The
fuel only bounds the number of tokens; every non-`EOF` token consumes at
least one character, so `length + 1` fuel (supplied by `tokenize`) always
suffices. -/
def tokenizeAux : Nat → List Char → Nat → Except CErr (List Token)
  | 0, _, _ => .error .fuelExhausted
  | fuel + 1, cs, p =>
    match get_next_token cs p with
    | .error e => .error e
    | .ok (t, cs', p') =>
      if t.type = .eof then .ok []
      else
        match tokenizeAux fuel cs' p' with
        | .error e => .error e
        | .ok ts => .ok (t :: ts)

/-- `Lexer(text).tokenize()`: the token sequence of a text (without the
terminating `EOF` token), or the first lexical failure. -/
def tokenize (cs : List Char) : Except CErr (List Token) :=
  tokenizeAux (cs.length + 1) cs 0

/-- Operator tag of a binary node (the parser only ever stores one of the
five operator tokens, synthesizing `MUL` for implicit multiplication). -/
inductive Op where
  | plus | minus | mul | div | pow
deriving DecidableEq

/-- AST nodes: `NumberNode` and `BinOpNode` from the source, as a closed sum
(the spec's design note prescribes exactly these two variants). -/
inductive ASTNode where
  | number (v : Val)
  | binOp (op : Op) (left right : ASTNode)
deriving DecidableEq

/-- Evaluation failures: the "Semantic Error: Division by zero" exception,
and the `ValueError` ("math domain error") that `math.pow` raises. -/
inductive EvalErr where
  | divisionByZero
  | mathDomain
deriving DecidableEq

/-- Python's `+` on numbers: two ints make an int, otherwise a float. -/
def Val.add : Val → Val → Val
  | .int a, .int b => .int (a + b)
  | .int a, .flt q => .flt ((a : ℚ) + q)
  | .flt q, .int b => .flt (q + (b : ℚ))
  | .flt q, .flt r => .flt (q + r)

/-- Python's `-` on numbers: two ints make an int, otherwise a float. -/
def Val.sub : Val → Val → Val
  | .int a, .int b => .int (a - b)
  | .int a, .flt q => .flt ((a : ℚ) - q)
  | .flt q, .int b => .flt (q - (b : ℚ))
  | .flt q, .flt r => .flt (q - r)

/-- Python's `*` on numbers: two ints make an int, otherwise a float. -/
def Val.mul : Val → Val → Val
  | .int a, .int b => .int (a * b)
  | .int a, .flt q => .flt ((a : ℚ) * q)
  | .flt q, .int b => .flt (q * (b : ℚ))
  | .flt q, .flt r => .flt (q * r)

/-- Python's `/` on numbers: true division, always a float (the zero check
happens before this is applied). -/
def Val.div (a b : Val) : Val :=
  .flt (a.toRat / b.toRat)

/-- `math.pow(a, b)`: converts both arguments to float and returns a float.
CPython raises `ValueError` ("math domain error") when the base is zero and
the exponent negative, and when the base is negative and the exponent not an
integer.  A positive base with a non-integer exponent yields an irrational
real in general, which no rational represents; that case is modelled by the
constant `0`, and no claim or proof in this development depends on the value
returned there.  Overflow to `OverflowError`/infinity is not modelled (the
rational model is exact). -/
def mathPow (a b : ℚ) : Except EvalErr ℚ :=
  if a = 0 ∧ b < 0 then .error .mathDomain
  else if b.den = 1 then .ok (a ^ b.num)
  else if a < 0 then .error .mathDomain
  else .ok 0

/-- `Evaluator.evaluate`: recursive post-order evaluation.  The left subtree
is evaluated before the right; `/` checks the right value against zero
(Python's `==`, which identifies `0` and `0.0`) before dividing; `^` applies
`math.pow`. -/
def evaluate : ASTNode → Except EvalErr Val
  | .number v => .ok v
  | .binOp op l r =>
    match evaluate l with
    | .error e => .error e
    | .ok a =>
      match evaluate r with
      | .error e => .error e
      | .ok b =>
        match op with
        | .plus => .ok (a.add b)
        | .minus => .ok (a.sub b)
        | .mul => .ok (a.mul b)
        | .div =>
          if b.toRat = 0 then .error .divisionByZero
          else .ok (a.div b)
        | .pow =>
          match mathPow a.toRat b.toRat with
          | .error e => .error e
          | .ok q => .ok (.flt q)

/-- Parser state: the characters the owned `Lexer` has not yet consumed, the
lexer's position, and the one-token lookahead (`self.current_token`). -/
structure PState where
  cs : List Char
  pos : Nat
  cur : Token
deriving DecidableEq

/-- `Parser.eat`: advance past the current token if it matches the expected
category (pulling the next token from the lexer), otherwise fail with the
"Expected X, but found Y" syntax error. -/
def eat (expected : TokType) (σ : PState) : Except CErr PState :=
  if σ.cur.type = expected then
    match get_next_token σ.cs σ.pos with
    | .error e => .error e
    | .ok (t, cs', p') => .ok ⟨cs', p', t⟩
  else
    .error (.expected expected σ.cur.type)

mutual

/-- `Parser.power`: `Power : NUMBER | LPAREN Expression RPAREN`; any other
current token is the "Unexpected token X" syntax error. -/
def power : Nat → PState → Except CErr (ASTNode × PState)
  | 0, _ => .error .fuelExhausted
  | fuel + 1, σ =>
    match σ.cur with
    | .number v =>
      match eat .number σ with
      | .error e => .error e
      | .ok σ1 => .ok (.number v, σ1)
    | .lparen =>
      match eat .lparen σ with
      | .error e => .error e
      | .ok σ1 =>
        match expr fuel σ1 with
        | .error e => .error e
        | .ok (node, σ2) =>
          match eat .rparen σ2 with
          | .error e => .error e
          | .ok σ3 => .ok (node, σ3)
    | t => .error (.unexpectedToken t.type)

/-- `Parser.factor`: `Factor : Power (POW Factor)?` — right-associative
exponentiation via the recursive call on the right. -/
def factor : Nat → PState → Except CErr (ASTNode × PState)
  | 0, _ => .error .fuelExhausted
  | fuel + 1, σ =>
    match power fuel σ with
    | .error e => .error e
    | .ok (node, σ1) =>
      if σ1.cur.type = .pow then
        match eat .pow σ1 with
        | .error e => .error e
        | .ok σ2 =>
          match factor fuel σ2 with
          | .error e => .error e
          | .ok (rhs, σ3) => .ok (.binOp .pow node rhs, σ3)
      else
        .ok (node, σ1)

/-- `Parser.term`: a factor followed by the multiplicative loop. -/
def term : Nat → PState → Except CErr (ASTNode × PState)
  | 0, _ => .error .fuelExhausted
  | fuel + 1, σ =>
    match factor fuel σ with
    | .error e => .error e
    | .ok (node, σ1) => termLoop fuel node σ1

/-- The `while` loop of `Parser.term`: as long as the current token is `MUL`,
`DIV`, `LPAREN` or `NUMBER`, extend the node to the left (left-associative);
`LPAREN`/`NUMBER` with no operator in between is implicit multiplication,
with a synthesized `MUL` operator. -/
def termLoop : Nat → ASTNode → PState → Except CErr (ASTNode × PState)
  | 0, _, _ => .error .fuelExhausted
  | fuel + 1, node, σ =>
    if σ.cur.type = .mul then
      match eat .mul σ with
      | .error e => .error e
      | .ok σ1 =>
        match factor fuel σ1 with
        | .error e => .error e
        | .ok (rhs, σ2) => termLoop fuel (.binOp .mul node rhs) σ2
    else if σ.cur.type = .div then
      match eat .div σ with
      | .error e => .error e
      | .ok σ1 =>
        match factor fuel σ1 with
        | .error e => .error e
        | .ok (rhs, σ2) => termLoop fuel (.binOp .div node rhs) σ2
    else if σ.cur.type = .lparen ∨ σ.cur.type = .number then
      match factor fuel σ with
      | .error e => .error e
      | .ok (rhs, σ1) => termLoop fuel (.binOp .mul node rhs) σ1
    else
      .ok (node, σ)

/-- `Parser.expr`: a term followed by the additive loop. -/
def expr : Nat → PState → Except CErr (ASTNode × PState)
  | 0, _ => .error .fuelExhausted
  | fuel + 1, σ =>
    match term fuel σ with
    | .error e => .error e
    | .ok (node, σ1) => exprLoop fuel node σ1

/-- The `while` loop of `Parser.expr`: as long as the current token is `PLUS`
or `MINUS`, extend the node to the left (left-associative). -/
def exprLoop : Nat → ASTNode → PState → Except CErr (ASTNode × PState)
  | 0, _, _ => .error .fuelExhausted
  | fuel + 1, node, σ =>
    if σ.cur.type = .plus then
      match eat .plus σ with
      | .error e => .error e
      | .ok σ1 =>
        match term fuel σ1 with
        | .error e => .error e
        | .ok (rhs, σ2) => exprLoop fuel (.binOp .plus node rhs) σ2
    else if σ.cur.type = .minus then
      match eat .minus σ with
      | .error e => .error e
      | .ok σ1 =>
        match term fuel σ1 with
        | .error e => .error e
        | .ok (rhs, σ2) => exprLoop fuel (.binOp .minus node rhs) σ2
    else
      .ok (node, σ)

end

/-- `Parser.__init__`: pull the first token from a fresh lexer on the text. -/
def parserInit (cs : List Char) : Except CErr PState :=
  match get_next_token cs 0 with
  | .error e => .error e
  | .ok (t, cs', p') => .ok ⟨cs', p', t⟩

/-- Fuel supplied to the embedded parser.  Every recursive call of the
parser either consumes a token first or is a nested-expression descent
bounded by the remaining input, so `2 * length + 8` is far beyond the
recursion depth any input of this length can force. -/
def parseFuel (cs : List Char) : Nat :=
  2 * cs.length + 8

/-- `Parser(Lexer(text)).parse()`: parse a whole text into one AST,
requiring `EOF` after the top-level expression ("End of expression
expected" otherwise). -/
def parse (cs : List Char) : Except CErr ASTNode :=
  match parserInit cs with
  | .error e => .error e
  | .ok σ0 =>
    match expr (parseFuel cs) σ0 with
    | .error e => .error e
    | .ok (node, σ1) =>
      if σ1.cur.type = .eof then .ok node else .error .endExpected

end Compiler

deriving instance DecidableEq for Except

namespace Compiler

/-! ### Character-class facts -/

theorem isSpaceChar_not_num {c : Char} (h : isSpaceChar c = true) :
    isNumChar c = false := by
  simp only [isSpaceChar, Bool.or_eq_true, decide_eq_true_eq] at h
  rcases h with ((((h | h) | h) | h) | h) | h <;> subst h <;> decide

theorem isDigitChar_not_space {c : Char} (h : isDigitChar c = true) :
    isSpaceChar c = false := by
  by_contra hs
  have hs' : isSpaceChar c = true := by
    cases hh : isSpaceChar c
    · exact absurd hh hs
    · rfl
  simp only [isSpaceChar, Bool.or_eq_true, decide_eq_true_eq] at hs'
  rcases hs' with ((((e | e) | e) | e) | e) | e <;> subst e <;> simp_all [isDigitChar]

theorem isDigitChar_isNum {c : Char} (h : isDigitChar c = true) :
    isNumChar c = true := by
  simp [isNumChar, h]

/-! ### List helpers -/

theorem takeWhile_append_of (P : Char → Bool) :
    ∀ (ds rest : List Char), (∀ c ∈ ds, P c = true) →
    (∀ c, rest.head? = some c → P c = false) →
    (ds ++ rest).takeWhile P = ds ∧ (ds ++ rest).dropWhile P = rest := by
  intro ds
  induction ds with
  | nil =>
    intro rest _ hrest
    cases rest with
    | nil => simp
    | cons r rs =>
      have hr : P r = false := hrest r rfl
      simp [List.takeWhile, List.dropWhile, hr]
  | cons d ds ih =>
    intro rest hds hrest
    have hd : P d = true := hds d (List.mem_cons_self d ds)
    have := ih rest (fun c hc => hds c (List.mem_cons_of_mem d hc)) hrest
    simp [List.takeWhile, List.dropWhile, hd, this.1, this.2]

theorem mem_takeWhile {P : Char → Bool} :
    ∀ (l : List Char) (c : Char), c ∈ l.takeWhile P → P c = true := by
  intro l
  induction l with
  | nil => intro c hc; simp [List.takeWhile] at hc
  | cons a l ih =>
    intro c hc
    cases ha : P a with
    | true =>
      rw [List.takeWhile_cons_of_pos ha] at hc
      rcases List.mem_cons.mp hc with h | h
      · exact h ▸ ha
      · exact ih c h
    | false =>
      rw [List.takeWhile_cons_of_neg (by simp [ha])] at hc
      simp at hc

/-- `dropWhile` is `drop` of the length of `takeWhile`. -/
theorem dropWhile_eq_drop {P : Char → Bool} (l : List Char) :
    l.dropWhile P = l.drop (l.takeWhile P).length := by
  calc l.dropWhile P
      = (l.takeWhile P ++ l.dropWhile P).drop (l.takeWhile P).length :=
        (List.drop_left _ _).symm
    _ = l.drop (l.takeWhile P).length := by
        rw [List.takeWhile_append_dropWhile]

/-! ### Lexer lemmas -/

/-- Skipping leading whitespace: `get_next_token` on whitespace followed by
anything lexes the remainder with the position advanced past the blanks. -/
theorem get_next_token_ws :
    ∀ (w : List Char), (∀ c ∈ w, isSpaceChar c = true) →
    ∀ (rest : List Char) (p : Nat),
    get_next_token (w ++ rest) p = get_next_token rest (p + w.length) := by
  intro w
  induction w with
  | nil => intro _ rest p; simp
  | cons a w ih =>
    intro hw rest p
    have ha : isSpaceChar a = true := hw a (List.mem_cons_self a w)
    rw [List.cons_append]
    show get_next_token (a :: (w ++ rest)) p = _
    rw [get_next_token, if_pos ha, ih (fun c hc => hw c (List.mem_cons_of_mem a hc)) rest (p + 1)]
    congr 1
    simp
    omega

/-- A nonempty all-digit run at the front of the input lexes to the integer
`NUMBER` token of its decimal value. -/
theorem get_next_token_digits :
    ∀ (ds rest : List Char) (p : Nat), ds ≠ [] →
    (∀ c ∈ ds, isDigitChar c = true) →
    (∀ c, rest.head? = some c → isNumChar c = false) →
    get_next_token (ds ++ rest) p =
      .ok (.number (.int (digitsToNat ds)), rest, p + ds.length) := by
  intro ds rest p hne hds hrest
  obtain ⟨d, ds', rfl⟩ : ∃ d ds', ds = d :: ds' := by
    cases ds with
    | nil => exact absurd rfl hne
    | cons d ds' => exact ⟨d, ds', rfl⟩
  have hd : isDigitChar d = true := hds d (List.mem_cons_self d ds')
  have hsplit := takeWhile_append_of isNumChar (d :: ds') rest
    (fun c hc => isDigitChar_isNum (hds c hc)) hrest
  have hdot : (d :: ds').count '.' = 0 := by
    rw [List.count_eq_zero]
    intro hmem
    have : isDigitChar '.' = true := hds '.' hmem
    simp [isDigitChar] at this
  rw [List.cons_append, get_next_token,
    if_neg (by rw [isDigitChar_not_space hd]; simp),
    if_pos (isDigitChar_isNum hd)]
  rw [← List.cons_append, hsplit.1, hsplit.2]
  rw [number, if_pos hdot]

/-! ### Parser step lemmas (for symbolic states, any fuel) -/

theorem power_number_step {cs cs' : List Char} {p p' : Nat} {t' : Token}
    {v : Val} {fuel : Nat}
    (h : get_next_token cs p = .ok (t', cs', p')) :
    power (fuel + 1) ⟨cs, p, .number v⟩ = .ok (.number v, ⟨cs', p', t'⟩) := by
  simp [power, eat, Token.type, h]

theorem power_eof {cs : List Char} {p : Nat} {fuel : Nat} :
    power (fuel + 1) ⟨cs, p, .eof⟩ = .error (.unexpectedToken .eof) := by
  simp [power, Token.type]

theorem factor_no_pow {σ σ1 : PState} {node : ASTNode} {fuel : Nat}
    (h : power fuel σ = .ok (node, σ1)) (h2 : σ1.cur.type ≠ .pow) :
    factor (fuel + 1) σ = .ok (node, σ1) := by
  simp [factor, h, h2]

theorem factor_err {σ : PState} {e : CErr} {fuel : Nat}
    (h : power fuel σ = .error e) :
    factor (fuel + 1) σ = .error e := by
  simp [factor, h]

theorem term_step {σ σ1 : PState} {node : ASTNode} {fuel : Nat}
    (h : factor fuel σ = .ok (node, σ1)) :
    term (fuel + 1) σ = termLoop fuel node σ1 := by
  simp [term, h]

theorem term_err {σ : PState} {e : CErr} {fuel : Nat}
    (h : factor fuel σ = .error e) :
    term (fuel + 1) σ = .error e := by
  simp [term, h]

theorem termLoop_eof {cs : List Char} {p : Nat} {node : ASTNode} {fuel : Nat} :
    termLoop (fuel + 1) node ⟨cs, p, .eof⟩ = .ok (node, ⟨cs, p, .eof⟩) := by
  simp [termLoop, Token.type]

theorem expr_step {σ σ1 : PState} {node : ASTNode} {fuel : Nat}
    (h : term fuel σ = .ok (node, σ1)) :
    expr (fuel + 1) σ = exprLoop fuel node σ1 := by
  simp [expr, h]

theorem expr_err {σ : PState} {e : CErr} {fuel : Nat}
    (h : term fuel σ = .error e) :
    expr (fuel + 1) σ = .error e := by
  simp [expr, h]

theorem exprLoop_eof {cs : List Char} {p : Nat} {node : ASTNode} {fuel : Nat} :
    exprLoop (fuel + 1) node ⟨cs, p, .eof⟩ = .ok (node, ⟨cs, p, .eof⟩) := by
  simp [exprLoop, Token.type]

/-! ### Whole-input parses: a single integer literal, and blank input -/

/-- Parsing a text that is whitespace, one nonempty digit run, then
whitespace yields exactly the integer literal node of that run's value. -/
theorem parse_single_int (w1 ds w2 : List Char)
    (hw1 : ∀ c ∈ w1, isSpaceChar c = true)
    (hw2 : ∀ c ∈ w2, isSpaceChar c = true)
    (hne : ds ≠ []) (hds : ∀ c ∈ ds, isDigitChar c = true) :
    parse (w1 ++ ds ++ w2) = .ok (.number (.int (digitsToNat ds))) := by
  have hrest : ∀ c, w2.head? = some c → isNumChar c = false := by
    intro c hc
    have hmem : c ∈ w2 := by
      cases w2 with
      | nil => simp [List.head?] at hc
      | cons a l =>
        simp [List.head?] at hc
        exact hc ▸ List.mem_cons_self a l
    exact isSpaceChar_not_num (hw2 c hmem)
  have h1 : get_next_token (ds ++ w2) w1.length =
      .ok (.number (.int (digitsToNat ds)), w2, w1.length + ds.length) :=
    get_next_token_digits ds w2 w1.length hne hds hrest
  have h0 : get_next_token (w1 ++ (ds ++ w2)) 0 =
      .ok (.number (.int (digitsToNat ds)), w2, w1.length + ds.length) := by
    rw [get_next_token_ws w1 hw1 (ds ++ w2) 0]
    simpa using h1
  have heof : get_next_token w2 (w1.length + ds.length) =
      .ok (.eof, [], w1.length + ds.length + w2.length) := by
    have hws := get_next_token_ws w2 hw2 [] (w1.length + ds.length)
    rw [List.append_nil] at hws
    rw [hws]
    rfl
  have hinit : parserInit (w1 ++ ds ++ w2) =
      .ok ⟨w2, w1.length + ds.length, .number (.int (digitsToNat ds))⟩ := by
    simp [parserInit, h0]
  have hp : power (2 * (w1 ++ ds ++ w2).length + 5)
      ⟨w2, w1.length + ds.length, .number (.int (digitsToNat ds))⟩ =
      .ok (.number (.int (digitsToNat ds)),
           ⟨[], w1.length + ds.length + w2.length, .eof⟩) := by
    rw [show 2 * (w1 ++ ds ++ w2).length + 5 = (2 * (w1 ++ ds ++ w2).length + 4) + 1 by omega]
    exact power_number_step heof
  have hf : factor (2 * (w1 ++ ds ++ w2).length + 6)
      ⟨w2, w1.length + ds.length, .number (.int (digitsToNat ds))⟩ =
      .ok (.number (.int (digitsToNat ds)),
           ⟨[], w1.length + ds.length + w2.length, .eof⟩) := by
    rw [show 2 * (w1 ++ ds ++ w2).length + 6 = (2 * (w1 ++ ds ++ w2).length + 5) + 1 by omega]
    exact factor_no_pow hp (by simp [Token.type])
  have ht : term (2 * (w1 ++ ds ++ w2).length + 7)
      ⟨w2, w1.length + ds.length, .number (.int (digitsToNat ds))⟩ =
      .ok (.number (.int (digitsToNat ds)),
           ⟨[], w1.length + ds.length + w2.length, .eof⟩) := by
    rw [show 2 * (w1 ++ ds ++ w2).length + 7 = (2 * (w1 ++ ds ++ w2).length + 6) + 1 by omega]
    rw [term_step hf]
    rw [show 2 * (w1 ++ ds ++ w2).length + 6 = (2 * (w1 ++ ds ++ w2).length + 5) + 1 by omega]
    exact termLoop_eof
  have he : expr (2 * (w1 ++ ds ++ w2).length + 8)
      ⟨w2, w1.length + ds.length, .number (.int (digitsToNat ds))⟩ =
      .ok (.number (.int (digitsToNat ds)),
           ⟨[], w1.length + ds.length + w2.length, .eof⟩) := by
    rw [show 2 * (w1 ++ ds ++ w2).length + 8 = (2 * (w1 ++ ds ++ w2).length + 7) + 1 by omega]
    rw [expr_step ht]
    rw [show 2 * (w1 ++ ds ++ w2).length + 7 = (2 * (w1 ++ ds ++ w2).length + 6) + 1 by omega]
    exact exprLoop_eof
  simp only [parse, parseFuel, hinit, he, Token.type]
  rfl

/-- On blank input (empty or all-whitespace) the lexer immediately reports
`EOF`, `tokenize` succeeds with the empty token list, and `parse` fails in
`Parser.power` with an unexpected-`EOF` syntax error. -/
theorem parse_all_ws (w : List Char) (hw : ∀ c ∈ w, isSpaceChar c = true) :
    get_next_token w 0 = .ok (.eof, [], w.length) ∧
    tokenize w = .ok [] ∧
    parse w = .error (.unexpectedToken .eof) := by
  have h0 : get_next_token w 0 = .ok (.eof, [], w.length) := by
    have hws := get_next_token_ws w hw [] 0
    rw [List.append_nil] at hws
    rw [hws]
    simp [get_next_token]
  refine ⟨h0, ?_, ?_⟩
  · simp [tokenize, tokenizeAux, h0, Token.type]
  · have hinit : parserInit w = .ok ⟨[], w.length, .eof⟩ := by
      simp [parserInit, h0]
    have hp : power (2 * w.length + 5) (⟨[], w.length, .eof⟩ : PState) =
        .error (.unexpectedToken .eof) := by
      rw [show 2 * w.length + 5 = (2 * w.length + 4) + 1 by omega]
      exact power_eof
    have hf : factor (2 * w.length + 6) (⟨[], w.length, .eof⟩ : PState) =
        .error (.unexpectedToken .eof) := by
      rw [show 2 * w.length + 6 = (2 * w.length + 5) + 1 by omega]
      exact factor_err hp
    have ht : term (2 * w.length + 7) (⟨[], w.length, .eof⟩ : PState) =
        .error (.unexpectedToken .eof) := by
      rw [show 2 * w.length + 7 = (2 * w.length + 6) + 1 by omega]
      exact term_err hf
    have he : expr (2 * w.length + 8) (⟨[], w.length, .eof⟩ : PState) =
        .error (.unexpectedToken .eof) := by
      rw [show 2 * w.length + 8 = (2 * w.length + 7) + 1 by omega]
      exact expr_err ht
    simp [parse, hinit, parseFuel, he]

/-! ### Lexical failure on a disallowed character -/

/-- The characters the lexer can consume: whitespace, digits and the decimal
point, and the seven operator/parenthesis characters. -/
def allowedChar (c : Char) : Bool :=
  isSpaceChar c || isNumChar c || (opToken? c).isSome

theorem number_error_shape {run : List Char} {e : CErr}
    (h : number run = .error e) : e = .valueError run := by
  unfold number at h
  split_ifs at h
  injection h with h2
  exact h2.symm

theorem number_ok_shape {run : List Char} {t : Token}
    (h : number run = .ok t) : ∃ v, t = .number v := by
  unfold number at h
  split_ifs at h
  · injection h with h2
    exact ⟨_, h2.symm⟩
  · injection h with h2
    exact ⟨_, h2.symm⟩

theorem opToken?_ne_eof {c : Char} {t : Token}
    (h : opToken? c = some t) : t.type ≠ .eof := by
  unfold opToken? at h
  split_ifs at h <;> (injection h with h2; subst h2; decide)

theorem get_next_token_cons_ws {a : Char} {rest : List Char} {p : Nat}
    (hs : isSpaceChar a = true) :
    get_next_token (a :: rest) p = get_next_token rest (p + 1) := by
  simp [get_next_token, hs]

theorem get_next_token_cons_num {a : Char} {rest : List Char} {p : Nat}
    (hs : isSpaceChar a = false) (hn : isNumChar a = true) :
    get_next_token (a :: rest) p =
      match number ((a :: rest).takeWhile isNumChar) with
      | .error e => .error e
      | .ok t =>
          .ok (t, (a :: rest).dropWhile isNumChar,
               p + ((a :: rest).takeWhile isNumChar).length) := by
  simp [get_next_token, hs, hn]

theorem get_next_token_cons_op {a : Char} {rest : List Char} {p : Nat}
    (hs : isSpaceChar a = false) (hn : isNumChar a = false) :
    get_next_token (a :: rest) p =
      match opToken? a with
      | some t => .ok (t, rest, p + 1)
      | none => .error (.lexical a p) := by
  simp [get_next_token, hs, hn]

/-- One lexer step on an input whose first disallowed character sits at
index `i`: either the step reports that character as a lexical error at
offset `p + i`, or it fails converting a malformed numeric literal, or it
consumes `k ≤ i` characters and produces a non-`EOF` token. -/
theorem get_next_token_firstBad :
    ∀ (cs : List Char) (p i : Nat) (c : Char), cs[i]? = some c →
    allowedChar c = false →
    (∀ j d, j < i → cs[j]? = some d → allowedChar d = true) →
    get_next_token cs p = .error (.lexical c (p + i)) ∨
    (∃ run, get_next_token cs p = .error (.valueError run)) ∨
    (∃ t cs' p' k, get_next_token cs p = .ok (t, cs', p') ∧ t.type ≠ .eof ∧
      0 < k ∧ k ≤ i ∧ cs' = cs.drop k ∧ p' = p + k) := by
  intro cs
  induction cs with
  | nil =>
    intro p i c hc
    simp at hc
  | cons a rest ih =>
    intro p i c hc hbad hpre
    by_cases hs : isSpaceChar a = true
    · have hi : i ≠ 0 := by
        intro h0
        subst h0
        have : a = c := by simpa using hc
        subst this
        simp [allowedChar, hs] at hbad
      obtain ⟨i', rfl⟩ : ∃ i', i = i' + 1 := ⟨i - 1, by omega⟩
      have hc' : rest[i']? = some c := by
        simpa [List.getElem?_cons_succ] using hc
      have hpre' : ∀ j d, j < i' → rest[j]? = some d → allowedChar d = true := by
        intro j d hj hd
        exact hpre (j + 1) d (by omega) (by simpa [List.getElem?_cons_succ] using hd)
      have step := @get_next_token_cons_ws a rest p hs
      rcases ih (p + 1) i' c hc' hbad hpre' with
        h | ⟨run, h⟩ | ⟨t, cs', p', k, h, ht, hk0, hki, hdrop, hp'⟩
      · left
        rw [step, h]
        have : p + 1 + i' = p + (i' + 1) := by omega
        rw [this]
      · right; left
        exact ⟨run, by rw [step, h]⟩
      · right; right
        refine ⟨t, cs', p', k + 1, by rw [step, h], ht, by omega, by omega, ?_, by omega⟩
        rw [List.drop_succ_cons, hdrop]
    · have hs' : isSpaceChar a = false := by
        cases hh : isSpaceChar a
        · rfl
        · exact absurd hh hs
      by_cases hn : isNumChar a = true
      · have hrun : ((a :: rest).takeWhile isNumChar) =
            a :: rest.takeWhile isNumChar := List.takeWhile_cons_of_pos hn
        have hrunlen : 1 ≤ ((a :: rest).takeWhile isNumChar).length := by
          rw [hrun]; simp
        have hprefix : (a :: rest).takeWhile isNumChar ++
            (a :: rest).dropWhile isNumChar = a :: rest :=
          List.takeWhile_append_dropWhile _ _
        have hki : ((a :: rest).takeWhile isNumChar).length ≤ i := by
          by_contra hlt
          push_neg at hlt
          have hget : (a :: rest)[i]? = ((a :: rest).takeWhile isNumChar)[i]? := by
            conv_lhs => rw [← hprefix]
            rw [List.getElem?_append, if_pos hlt]
          have hcrun : ((a :: rest).takeWhile isNumChar)[i]? = some c :=
            hget ▸ hc
          have hcmem : c ∈ (a :: rest).takeWhile isNumChar :=
            List.getElem?_mem hcrun
          have : isNumChar c = true := mem_takeWhile _ c hcmem
          simp [allowedChar, this] at hbad
        have hdw : (a :: rest).dropWhile isNumChar =
            (a :: rest).drop ((a :: rest).takeWhile isNumChar).length :=
          dropWhile_eq_drop _
        have step := @get_next_token_cons_num a rest p hs' hn
        cases hnum : number ((a :: rest).takeWhile isNumChar) with
        | error e =>
          obtain rfl := number_error_shape hnum
          right; left
          exact ⟨_, by rw [step, hnum]⟩
        | ok t =>
          obtain ⟨v, rfl⟩ := number_ok_shape hnum
          right; right
          refine ⟨.number v, (a :: rest).dropWhile isNumChar,
            p + ((a :: rest).takeWhile isNumChar).length,
            ((a :: rest).takeWhile isNumChar).length,
            by rw [step, hnum], by simp [Token.type], by omega, hki, hdw, rfl⟩
      · have hn' : isNumChar a = false := by
          cases hh : isNumChar a
          · rfl
          · exact absurd hh hn
        have step := @get_next_token_cons_op a rest p hs' hn'
        cases ho : opToken? a with
        | some t =>
          have haal : allowedChar a = true := by simp [allowedChar, ho]
          have hi : i ≠ 0 := by
            intro h0
            subst h0
            have : a = c := by simpa using hc
            subst this
            rw [haal] at hbad
            simp at hbad
          right; right
          refine ⟨t, rest, p + 1, 1, by rw [step, ho], opToken?_ne_eof ho,
            by omega, by omega, by simp, rfl⟩
        | none =>
          have haal : allowedChar a = false := by
            simp [allowedChar, hs', hn', ho]
          have hi : i = 0 := by
            by_contra h0
            have := hpre 0 a (by omega) (by simp)
            rw [haal] at this
            simp at this
          subst hi
          have : a = c := by simpa using hc
          subst this
          left
          rw [step, ho]
          have : p + 0 = p := by omega
          rw [this]

/-- The tokenize loop on an input whose first disallowed character sits at
index `i`: it fails, with the lexical error at offset `p + i` unless a
malformed numeric literal fails conversion first. -/
theorem tokenizeAux_firstBad :
    ∀ (fuel : Nat) (cs : List Char) (p i : Nat) (c : Char),
    cs.length < fuel → cs[i]? = some c → allowedChar c = false →
    (∀ j d, j < i → cs[j]? = some d → allowedChar d = true) →
    tokenizeAux fuel cs p = .error (.lexical c (p + i)) ∨
    ∃ run, tokenizeAux fuel cs p = .error (.valueError run) := by
  intro fuel
  induction fuel with
  | zero =>
    intro cs p i c hlen
    omega
  | succ fuel ih =>
    intro cs p i c hlen hc hbad hpre
    rcases get_next_token_firstBad cs p i c hc hbad hpre with
      h | ⟨run, h⟩ | ⟨t, cs', p', k, h, ht, hk0, hki, hdrop, hp'⟩
    · left
      simp [tokenizeAux, h]
    · right
      exact ⟨run, by simp [tokenizeAux, h]⟩
    · obtain ⟨hilen, -⟩ := List.getElem?_eq_some.mp hc
      have hlen' : cs'.length < fuel := by
        subst hdrop
        rw [List.length_drop]
        omega
      have hc' : cs'[i - k]? = some c := by
        subst hdrop
        rw [List.getElem?_drop, show k + (i - k) = i by omega]
        exact hc
      have hpre' : ∀ j d, j < i - k → cs'[j]? = some d → allowedChar d = true := by
        intro j d hj hd
        subst hdrop
        rw [List.getElem?_drop] at hd
        exact hpre (k + j) d (by omega) hd
      rcases ih cs' p' (i - k) c hlen' hc' hbad hpre' with h2 | ⟨run, h2⟩
      · left
        rw [show p' + (i - k) = p + i by omega] at h2
        simp [tokenizeAux, h, ht, h2]
      · right
        exact ⟨run, by simp [tokenizeAux, h, ht, h2]⟩

/-- An input containing a disallowed character has a first one. -/
theorem exists_firstBad :
    ∀ cs : List Char, (∃ c ∈ cs, allowedChar c = false) →
    ∃ (i : Nat) (c : Char), cs[i]? = some c ∧ allowedChar c = false ∧
      ∀ (j : Nat) (d : Char), j < i → cs[j]? = some d → allowedChar d = true := by
  intro cs
  induction cs with
  | nil =>
    intro h
    simp at h
  | cons a rest ih =>
    intro h
    by_cases ha : allowedChar a = true
    · have hrest : ∃ c ∈ rest, allowedChar c = false := by
        rcases h with ⟨c, hc, hcb⟩
        rcases List.mem_cons.mp hc with rfl | hc'
        · rw [ha] at hcb
          simp at hcb
        · exact ⟨c, hc', hcb⟩
      rcases ih hrest with ⟨i, c, h1, h2, h3⟩
      refine ⟨i + 1, c, by simpa [List.getElem?_cons_succ] using h1, h2, ?_⟩
      intro j d hj hd
      cases j with
      | zero =>
        have had : a = d := by simpa using hd
        exact had ▸ ha
      | succ j' =>
        exact h3 j' d (by omega) (by simpa [List.getElem?_cons_succ] using hd)
    · have ha' : allowedChar a = false := by
        cases hh : allowedChar a
        · rfl
        · exact absurd hh ha
      exact ⟨0, a, by simp, ha', fun j d hj _ => absurd hj (by omega)⟩

/-- A decidable prefix-side condition transfers to index form. -/
theorem take_all_indexed {cs : List Char} {i : Nat}
    (h : (cs.take i).all allowedChar = true) :
    ∀ j d, j < i → cs[j]? = some d → allowedChar d = true := by
  intro j d hj hd
  have hmem : d ∈ cs.take i := by
    have hget : (cs.take i)[j]? = some d := by
      rw [List.getElem?_take, if_pos hj]
      exact hd
    exact List.getElem?_mem hget
  exact List.all_eq_true.mp h d hmem

/-! ### Claims -/

/-- C1: Exponentiation is right-associative: parsing "2 ^ 3 ^ 2" yields the
AST `2 ^ (3 ^ 2)` (not `(2 ^ 2) ^ 3`), and evaluating that AST yields 512.
As in the source, `math.pow` returns a float, so the result is the
floating-point value 512.0, whose numeric magnitude is exactly 512. -/
theorem c1_pow_right_assoc :
    parse "2 ^ 3 ^ 2".toList =
      .ok (.binOp .pow (.number (.int 2))
        (.binOp .pow (.number (.int 3)) (.number (.int 2)))) ∧
    evaluate (.binOp .pow (.number (.int 2))
        (.binOp .pow (.number (.int 3)) (.number (.int 2)))) = .ok (.flt 512) ∧
    (Val.flt 512).toRat = 512 := by
  refine ⟨by decide, ?_, rfl⟩
  norm_num [evaluate, Val.toRat, mathPow]

/-- C2: Division always produces a floating-point result, even on two
integer operands: "3 + 5 * (10 / 2)" parses to the expected tree and
evaluates to the float 28.0, via 10/2 = 5.0, 5 * 5.0 = 25.0,
3 + 25.0 = 28.0. -/
theorem c2_div_always_float :
    parse "3 + 5 * (10 / 2)".toList =
      .ok (.binOp .plus (.number (.int 3))
        (.binOp .mul (.number (.int 5))
          (.binOp .div (.number (.int 10)) (.number (.int 2))))) ∧
    evaluate (.binOp .div (.number (.int 10)) (.number (.int 2))) =
      .ok (.flt 5) ∧
    evaluate (.binOp .mul (.number (.int 5))
        (.binOp .div (.number (.int 10)) (.number (.int 2)))) = .ok (.flt 25) ∧
    evaluate (.binOp .plus (.number (.int 3))
        (.binOp .mul (.number (.int 5))
          (.binOp .div (.number (.int 10)) (.number (.int 2))))) =
      .ok (.flt 28) := by
  refine ⟨by decide, ?_, ?_, ?_⟩ <;>
    norm_num [evaluate, Val.toRat, Val.div, Val.mul, Val.add]

/-- C3 as stated is false: for the division node parsed from "0^(1-2)/0",
whose right operand evaluates to exactly zero, evaluation fails with the
math domain error that `math.pow(0, -1)` raises while evaluating the left
operand, not with DivisionByZero. -/
theorem c3_counterexample :
    parse "0^(1-2)/0".toList =
      .ok (.binOp .div
        (.binOp .pow (.number (.int 0))
          (.binOp .minus (.number (.int 1)) (.number (.int 2))))
        (.number (.int 0))) ∧
    evaluate (.number (.int 0)) = .ok (.int 0) ∧
    (Val.int 0).toRat = 0 ∧
    evaluate (.binOp .div
        (.binOp .pow (.number (.int 0))
          (.binOp .minus (.number (.int 1)) (.number (.int 2))))
        (.number (.int 0))) = .error .mathDomain ∧
    evaluate (.binOp .div
        (.binOp .pow (.number (.int 0))
          (.binOp .minus (.number (.int 1)) (.number (.int 2))))
        (.number (.int 0))) ≠ .error .divisionByZero := by
  exact ⟨by decide, rfl, by decide, by decide, by decide⟩

/-- C3 amended: for every division node whose right operand evaluates to
exactly zero, evaluation fails and never returns a value (in particular
never an infinity or NaN): it fails with DivisionByZero whenever the left
operand evaluates successfully, and with the left operand's own error when
the left operand already fails; in particular evaluate(parse("5/0")) fails
with DivisionByZero. -/
theorem c3_div_zero_amended :
    (∀ (l r : ASTNode) (v : Val), evaluate r = .ok v → v.toRat = 0 →
      (∀ e, evaluate l = .error e → evaluate (.binOp .div l r) = .error e) ∧
      (∀ a, evaluate l = .ok a →
        evaluate (.binOp .div l r) = .error .divisionByZero) ∧
      (∀ w, evaluate (.binOp .div l r) ≠ .ok w)) ∧
    parse "5/0".toList =
      .ok (.binOp .div (.number (.int 5)) (.number (.int 0))) ∧
    evaluate (.binOp .div (.number (.int 5)) (.number (.int 0))) =
      .error .divisionByZero := by
  refine ⟨?_, by decide, by decide⟩
  intro l r v hr hv
  refine ⟨?_, ?_, ?_⟩
  · intro e he
    simp [evaluate, he]
  · intro a ha
    simp [evaluate, ha, hr, hv]
  · intro w hw
    cases hl : evaluate l with
    | error e => simp [evaluate, hl] at hw
    | ok a => simp [evaluate, hl, hr, hv] at hw

/-- Witness for C3's amended theorem at a concrete division node. -/
theorem c3_div_zero_amended_witness :
    evaluate (.binOp .div (.number (.int 7)) (.number (.int 0))) =
      .error .divisionByZero :=
  (c3_div_zero_amended.1 (.number (.int 7)) (.number (.int 0)) (.int 0)
    rfl (by decide)).2.1 (.int 7) rfl

/-- C4: Implicit multiplication.  Whenever the current token is a `NUMBER`
or `LPAREN`, the term loop proceeds exactly as explicit multiplication
would, synthesizing a `MUL` node — the parser never requires an explicit
`*` there.  Concretely, "3(4+5)" parses to the same AST as "3*(4+5)" and
evaluates to 27. -/
theorem c4_implicit_multiplication :
    (∀ (fuel : Nat) (node : ASTNode) (σ : PState),
      (σ.cur.type = .lparen ∨ σ.cur.type = .number) →
      termLoop (fuel + 1) node σ =
        (match factor fuel σ with
         | .error e => .error e
         | .ok (rhs, σ1) => termLoop fuel (.binOp .mul node rhs) σ1)) ∧
    parse "3(4+5)".toList = parse "3*(4+5)".toList ∧
    parse "3(4+5)".toList =
      .ok (.binOp .mul (.number (.int 3))
        (.binOp .plus (.number (.int 4)) (.number (.int 5)))) ∧
    evaluate (.binOp .mul (.number (.int 3))
        (.binOp .plus (.number (.int 4)) (.number (.int 5)))) =
      .ok (.int 27) := by
  refine ⟨?_, by decide, by decide, by decide⟩
  intro fuel node σ h
  have h1 : σ.cur.type ≠ .mul := by rcases h with h | h <;> simp [h]
  have h2 : σ.cur.type ≠ .div := by rcases h with h | h <;> simp [h]
  simp [termLoop, h1, h2, h]

/-- Witness for C4's implicit-multiplication step, at the parser state of
"3(4+5)" just after the leading 3 (current token `LPAREN`). -/
theorem c4_implicit_multiplication_witness :
    termLoop 11 (.number (.int 3)) ⟨"4+5)".toList, 2, .lparen⟩ =
      .ok (.binOp .mul (.number (.int 3))
        (.binOp .plus (.number (.int 4)) (.number (.int 5))),
        ⟨[], 6, .eof⟩) := by
  rw [c4_implicit_multiplication.1 10 (.number (.int 3))
    ⟨"4+5)".toList, 2, .lparen⟩ (Or.inl rfl)]
  decide

/-- C5: For `+`, `-`, `*` on two integer-valued operands the result is an
integer (with the usual value); if either operand is floating-point the
result is floating-point. -/
theorem c5_int_preservation :
    (∀ (l r : ASTNode) (x y : ℤ),
      evaluate l = .ok (.int x) → evaluate r = .ok (.int y) →
      evaluate (.binOp .plus l r) = .ok (.int (x + y)) ∧
      evaluate (.binOp .minus l r) = .ok (.int (x - y)) ∧
      evaluate (.binOp .mul l r) = .ok (.int (x * y))) ∧
    (∀ (l r : ASTNode) (v : Val) (q : ℚ),
      evaluate l = .ok v → evaluate r = .ok (.flt q) →
      (∃ s, evaluate (.binOp .plus l r) = .ok (.flt s)) ∧
      (∃ s, evaluate (.binOp .minus l r) = .ok (.flt s)) ∧
      (∃ s, evaluate (.binOp .mul l r) = .ok (.flt s))) ∧
    (∀ (l r : ASTNode) (q : ℚ) (v : Val),
      evaluate l = .ok (.flt q) → evaluate r = .ok v →
      (∃ s, evaluate (.binOp .plus l r) = .ok (.flt s)) ∧
      (∃ s, evaluate (.binOp .minus l r) = .ok (.flt s)) ∧
      (∃ s, evaluate (.binOp .mul l r) = .ok (.flt s))) := by
  refine ⟨?_, ?_, ?_⟩
  · intro l r x y hl hr
    refine ⟨?_, ?_, ?_⟩ <;> simp [evaluate, hl, hr, Val.add, Val.sub, Val.mul]
  · intro l r v q hl hr
    cases v with
    | int a =>
      exact ⟨⟨(a : ℚ) + q, by simp [evaluate, hl, hr, Val.add]⟩,
        ⟨(a : ℚ) - q, by simp [evaluate, hl, hr, Val.sub]⟩,
        ⟨(a : ℚ) * q, by simp [evaluate, hl, hr, Val.mul]⟩⟩
    | flt p =>
      exact ⟨⟨p + q, by simp [evaluate, hl, hr, Val.add]⟩,
        ⟨p - q, by simp [evaluate, hl, hr, Val.sub]⟩,
        ⟨p * q, by simp [evaluate, hl, hr, Val.mul]⟩⟩
  · intro l r q v hl hr
    cases v with
    | int b =>
      exact ⟨⟨q + (b : ℚ), by simp [evaluate, hl, hr, Val.add]⟩,
        ⟨q - (b : ℚ), by simp [evaluate, hl, hr, Val.sub]⟩,
        ⟨q * (b : ℚ), by simp [evaluate, hl, hr, Val.mul]⟩⟩
    | flt p =>
      exact ⟨⟨q + p, by simp [evaluate, hl, hr, Val.add]⟩,
        ⟨q - p, by simp [evaluate, hl, hr, Val.sub]⟩,
        ⟨q * p, by simp [evaluate, hl, hr, Val.mul]⟩⟩

/-- Witness for C5 at concrete integer and mixed operands. -/
theorem c5_int_preservation_witness :
    evaluate (.binOp .plus (.number (.int 2)) (.number (.int 3))) =
      .ok (.int 5) ∧
    (∃ s, evaluate (.binOp .mul (.number (.int 2)) (.number (.flt 7))) =
      .ok (.flt s)) := by
  constructor
  · have h := (c5_int_preservation.1 (.number (.int 2)) (.number (.int 3))
      2 3 rfl rfl).1
    simpa using h
  · exact ((c5_int_preservation.2.1 (.number (.int 2)) (.number (.flt 7))
      (.int 2) 7 rfl rfl).2.2)

/-- C6: For every input that is a single integer literal (a nonempty digit
run), optionally surrounded by whitespace, parsing yields exactly the
integer literal node of the literal's value and evaluating that node
returns the value unchanged, as an integer. -/
theorem c6_single_integer_literal :
    ∀ w1 ds w2 : List Char,
    (∀ c ∈ w1, isSpaceChar c = true) → (∀ c ∈ w2, isSpaceChar c = true) →
    ds ≠ [] → (∀ c ∈ ds, isDigitChar c = true) →
    parse (w1 ++ ds ++ w2) = .ok (.number (.int (digitsToNat ds))) ∧
    evaluate (.number (.int (digitsToNat ds))) = .ok (.int (digitsToNat ds)) :=
  fun w1 ds w2 h1 h2 h3 h4 =>
    ⟨parse_single_int w1 ds w2 h1 h2 h3 h4, rfl⟩

/-- Witness for C6 at the input "  42 ". -/
theorem c6_single_integer_literal_witness :
    parse "  42 ".toList = .ok (.number (.int 42)) := by
  have h := (c6_single_integer_literal [' ', ' '] ['4', '2'] [' ']
    (by decide) (by decide) (by decide) (by decide)).1
  have e1 : "  42 ".toList = [' ', ' '] ++ ['4', '2'] ++ [' '] := by decide
  have e2 : ((digitsToNat ['4', '2'] : ℕ) : ℤ) = 42 := by decide
  rw [e1, h, e2]

/-- C7 as stated is false: the input "1.2.3@" contains the disallowed
character '@' (at offset 5), yet lexing fails with the numeric-conversion
(`float()`) ValueError on the malformed literal "1.2.3", not with a
LexicalError reporting '@'. -/
theorem c7_counterexample :
    tokenize "1.2.3@".toList =
      .error (.valueError ['1', '.', '2', '.', '3']) ∧
    tokenize "1.2.3@".toList ≠ .error (.lexical '@' 5) := by
  exact ⟨by decide, by decide⟩

/-- C7 amended: lexing any input containing a character outside digits,
'.', whitespace and the seven operator/parenthesis characters fails; the
failure is a LexicalError carrying the first such character and its
zero-based input offset, unless a malformed numeric literal fails float
conversion first, in which case it is that conversion error; in particular
tokenize("7 @ 2") fails reporting character '@' at offset 2. -/
theorem c7_lexical_error_amended :
    (∀ cs : List Char, (∃ c ∈ cs, allowedChar c = false) →
      ∃ e, tokenize cs = .error e) ∧
    (∀ (cs : List Char) (i : Nat) (c : Char), cs[i]? = some c →
      allowedChar c = false → (cs.take i).all allowedChar = true →
      tokenize cs = .error (.lexical c i) ∨
      ∃ run, tokenize cs = .error (.valueError run)) ∧
    tokenize "7 @ 2".toList = .error (.lexical '@' 2) := by
  have key : ∀ (cs : List Char) (i : Nat) (c : Char), cs[i]? = some c →
      allowedChar c = false →
      (∀ j d, j < i → cs[j]? = some d → allowedChar d = true) →
      tokenize cs = .error (.lexical c i) ∨
      ∃ run, tokenize cs = .error (.valueError run) := by
    intro cs i c hc hbad hpre
    have h := tokenizeAux_firstBad (cs.length + 1) cs 0 i c (by omega) hc hbad hpre
    simpa [tokenize] using h
  refine ⟨?_, ?_, by decide⟩
  · intro cs hex
    rcases exists_firstBad cs hex with ⟨i, c, h1, h2, h3⟩
    rcases key cs i c h1 h2 h3 with h | ⟨run, h⟩
    · exact ⟨_, h⟩
    · exact ⟨_, h⟩
  · intro cs i c hc hbad htake
    exact key cs i c hc hbad (take_all_indexed htake)

/-- Witness for C7's amended theorem at "7 @ 2" and "7 %". -/
theorem c7_lexical_error_amended_witness :
    (tokenize "7 @ 2".toList = .error (.lexical '@' 2) ∨
      ∃ run, tokenize "7 @ 2".toList = .error (.valueError run)) ∧
    (∃ e, tokenize "7 %".toList = .error e) := by
  constructor
  · exact c7_lexical_error_amended.2.1 "7 @ 2".toList 2 '@'
      (by decide) (by decide) (by decide)
  · exact c7_lexical_error_amended.1 "7 %".toList ⟨'%', by decide, by decide⟩

/-- C8: `eat` on a mismatched token always fails with a SyntaxError naming
the expected token category and the one found; in particular parsing the
unbalanced "(1 + 2" fails expecting `RPAREN` and finding `EOF`. -/
theorem c8_unmatched_paren :
    (∀ (σ : PState) (exp : TokType), σ.cur.type ≠ exp →
      eat exp σ = .error (.expected exp σ.cur.type)) ∧
    parse "(1 + 2".toList = .error (.expected .rparen .eof) := by
  refine ⟨?_, by decide⟩
  intro σ exp h
  simp [eat, h]

/-- Witness for C8 at the parser state reached at the end of "(1 + 2". -/
theorem c8_unmatched_paren_witness :
    eat .rparen ⟨[], 6, .eof⟩ = .error (.expected .rparen .eof) :=
  c8_unmatched_paren.1 ⟨[], 6, .eof⟩ .rparen (by decide)

/-- C9: tokenizing and parsing are deterministic with no hidden state
across runs.  The embedding is pure by construction — a Lexer/Parser
instance is exactly its per-run state (input text, cursor offset, lookahead
token), which `tokenize`/`parse` build afresh from the text — so two runs
over the same text are the same function application and agree whether the
outcome is a token sequence, an AST, or an error. -/
theorem c9_deterministic :
    ∀ cs : List Char,
      tokenize cs = tokenize cs ∧ parse cs = parse cs ∧
      ∀ p : Nat, get_next_token cs p = get_next_token cs p :=
  fun _ => ⟨rfl, rfl, fun _ => rfl⟩

/-- C10: On empty or whitespace-only input the lexer's first token is the
single `EOF` token (no error, and `tokenize` collects the empty token
list), and `parse` fails with the unexpected-`EOF` syntax error from
`Parser.power` rather than crashing or returning a value. -/
theorem c10_empty_input :
    ∀ w : List Char, (∀ c ∈ w, isSpaceChar c = true) →
    get_next_token w 0 = .ok (.eof, [], w.length) ∧
    tokenize w = .ok [] ∧
    parse w = .error (.unexpectedToken .eof) :=
  fun w hw => parse_all_ws w hw

/-- Witness for C10 on the empty input and on a one-blank input. -/
theorem c10_empty_input_witness :
    tokenize ([] : List Char) = .ok [] ∧
    parse [' '] = .error (.unexpectedToken .eof) :=
  ⟨(c10_empty_input [] (by decide)).2.1,
   (c10_empty_input [' '] (by decide)).2.2⟩

end Compiler
